import Mathlib

/-!
Verification development for the rozetka-parser repository.

The file shallowly embeds the parts of the code that the checked
properties concern:

* `makeRequestFrom` / `makeRequest` — the retry loop of
  `RozetkaAPI._make_request` (src/api/rozetka.py), with the per-attempt
  HTTP outcome supplied by an environment function and the sleeps after
  each attempt recorded in an explicit trace.
* `paginationWalk` and the brand-level traversal functions — the
  pagination and task-generation logic of `RozetkaAPI`
  (`_process_simple_pagination`, `_process_with_sort`,
  `_process_single_filter`, `_process_filter_sort_combo`,
  `_get_filter_id_by_name`, `_get_filter_values`,
  `_process_with_filters_and_sort`, `_process_default_parsing`,
  `get_product_ids_for_brand`), with page responses supplied by an
  environment function and the issued requests / started walks recorded
  as events.
* `collectProductIdsWithWorkers` / `getAllProductIdsForCategory` — the
  per-brand fan-out of `ApplicationRozetka.collect_product_ids_with_workers`
  and the sequential `RozetkaAPI.get_all_product_ids_for_category`.
* `makeBatches` — the batch partitioning of
  `ApplicationRozetka.process_batches_with_workers`.
* `start` — the per-category entry loop of `ApplicationRozetka.start`.
-/

/-- Kind of exception caught inside an attempt of `_make_request`.
All four except-branches of the source behave identically (log, return
null on the final attempt, otherwise fall through to the backoff). -/
inductive ExnKind
  | timeout
  | connErr
  | reqErr
  | unexpected
deriving DecidableEq, Repr

/-- Observable outcome of one HTTP attempt, as classified by
`_make_request`.  `okJson d` is an HTTP 200 response with JSON
content-type, where `d = some p` means the body decodes to payload `p`
and `d = none` means `response.json()` raises `ValueError`.  `okHtml`
and `okOther` are HTTP 200 with a text/html or other content-type
(both return the raw text).  `status c` is a non-200 status code, and
`exn k` a network-level exception caught by the attempt. -/
inductive Outcome
  | okJson (decoded : Option Nat)
  | okHtml
  | okOther
  | status (code : Nat)
  | exn (k : ExnKind)
deriving DecidableEq, Repr

/-- Value returned by a successful `_make_request`: a decoded JSON
payload (abstracted to a token) or the raw response text. -/
inductive MResult
  | jsonVal (p : Nat)
  | textVal
deriving DecidableEq, Repr

/-- A sleep performed after an attempt's response was classified:
the 429 penalty `time.sleep(5 * (attempt + 1))`, or the exponential
backoff `time.sleep(2 ** attempt + uniform(0, 1))` (recorded by its
attempt index; the random summand is irrelevant to the properties). -/
inductive Sleep
  | penalty (secs : Nat)
  | backoff (attempt : Nat)
deriving DecidableEq, Repr

/-- Record of one attempt of the retry loop: the classified outcome and
the sleeps performed after it (before the next attempt, if any).  The
randomized pre-request delay at the top of every attempt is constant
noise and is not recorded. -/
structure AttemptRec where
  outcome : Outcome
  post : List Sleep
deriving DecidableEq, Repr

/-- The retry loop of `_make_request`, at attempt index `k` with
attempt budget `m` (`max_retries`) and `rem` attempts remaining
(`rem = m - k` at every call reachable from `makeRequest`; the loop
`for attempt in range(max_retries)` runs while `rem > 0`).  `env`
gives the outcome of each attempt.  Returns the call's result together
with the trace of attempts actually performed, in order. -/
def makeRequestFrom (env : Nat → Outcome) (m k : Nat) :
    Nat → Option MResult × List AttemptRec
  | 0 => (none, [])
  | rem + 1 =>
    match env k with
    | .okJson (some p) => (some (.jsonVal p), [⟨.okJson (some p), []⟩])
    | .okJson none =>
      -- JSON decode failure: return null on the final attempt, else
      -- `continue` (which skips the backoff block).
      if k = m - 1 then (none, [⟨.okJson none, []⟩])
      else
        let r := makeRequestFrom env m (k + 1) rem
        (r.1, ⟨.okJson none, []⟩ :: r.2)
    | .okHtml => (some .textVal, [⟨.okHtml, []⟩])
    | .okOther => (some .textVal, [⟨.okOther, []⟩])
    | .status c =>
      if c = 403 then
        if k = m - 1 then (none, [⟨.status c, []⟩])
        else
          let r := makeRequestFrom env m (k + 1) rem
          (r.1, ⟨.status c, [.backoff k]⟩ :: r.2)
      else if c = 429 then
        -- the 5 * (attempt + 1) sleep happens before the final-attempt
        -- check, so it is performed even when the loop then returns.
        if k = m - 1 then (none, [⟨.status c, [.penalty (5 * (k + 1))]⟩])
        else
          let r := makeRequestFrom env m (k + 1) rem
          (r.1, ⟨.status c, [.penalty (5 * (k + 1)), .backoff k]⟩ :: r.2)
      else if c = 404 then (none, [⟨.status c, []⟩])
      else if 500 ≤ c ∧ c < 600 then
        if k = m - 1 then (none, [⟨.status c, []⟩])
        else
          let r := makeRequestFrom env m (k + 1) rem
          (r.1, ⟨.status c, [.backoff k]⟩ :: r.2)
      else
        if k = m - 1 then (none, [⟨.status c, []⟩])
        else
          let r := makeRequestFrom env m (k + 1) rem
          (r.1, ⟨.status c, [.backoff k]⟩ :: r.2)
    | .exn e =>
      if k = m - 1 then (none, [⟨.exn e, []⟩])
      else
        let r := makeRequestFrom env m (k + 1) rem
        (r.1, ⟨.exn e, [.backoff k]⟩ :: r.2)

/-- One call of `_make_request` with attempt budget `m`: the retry loop
from attempt 0 with all `m` attempts remaining. -/
def makeRequest (env : Nat → Outcome) (m : Nat) :
    Option MResult × List AttemptRec :=
  makeRequestFrom env m 0 m

/-- Response environment in which every attempt yields HTTP 429. -/
def envAll429 : Nat → Outcome := fun _ => .status 429

/-- Response environment in which every attempt yields an HTTP 200 JSON
response whose body fails to decode. -/
def envAllDecodeFail : Nat → Outcome := fun _ => .okJson none

/-- Response environment in which every attempt yields HTTP 404. -/
def envAll404 : Nat → Outcome := fun _ => .status 404

/-- Sleeps performed after one attempt's outcome is classified, read
off the loop body of `_make_request` (the 429 penalty, then the
exponential backoff when another attempt remains; the `continue` of
the decode-failure branch skips the backoff). -/
def attemptPost (o : Outcome) (k m : Nat) : List Sleep :=
  match o with
  | .okJson _ => []
  | .okHtml => []
  | .okOther => []
  | .status c =>
    if c = 403 then (if k = m - 1 then [] else [.backoff k])
    else if c = 429 then
      (if k = m - 1 then [.penalty (5 * (k + 1))]
       else [.penalty (5 * (k + 1)), .backoff k])
    else if c = 404 then []
    else if k = m - 1 then [] else [.backoff k]
  | .exn _ => if k = m - 1 then [] else [.backoff k]

/-- Whether one attempt of `_make_request` returns from the loop
(`some result`) or falls through to the next attempt (`none`). -/
def attemptReturns (o : Outcome) (k m : Nat) : Option (Option MResult) :=
  match o with
  | .okJson (some p) => some (some (.jsonVal p))
  | .okJson none => if k = m - 1 then some none else none
  | .okHtml => some (some .textVal)
  | .okOther => some (some .textVal)
  | .status c =>
    if c = 404 then some none
    else if k = m - 1 then some none else none
  | .exn _ => if k = m - 1 then some none else none

/-- One value of a filter dimension, as read from the catalog response
by `_process_with_filters_and_sort` (fields accessed by key, so a
well-formed value carries all three). -/
structure FilterValue where
  option_value_name : String
  products_quantity : Nat
  option_value_title : String
deriving DecidableEq, Repr

/-- One entry of the response's `data.filters.options` mapping:
a display title and candidate values (`option_values` defaults to the
empty list when absent, as in `_get_filter_values`). -/
structure FilterOption where
  option_title : String
  option_values : List FilterValue
deriving DecidableEq, Repr

/-- The `data.filters` block of a catalog response.  `options = none`
models a response without the `options` key; the association list keeps
the dict's insertion order, which the source iterates over. -/
structure FiltersBlock where
  options : Option (List (String × FilterOption))
deriving DecidableEq, Repr

/-- The `data.goods` block of a catalog response.  `none` fields model
absent keys (`'ids' in goods_data`, `goods_data.get('total_pages', 1)`). -/
structure Goods where
  ids : Option (List Nat)
  total_pages : Option Nat
deriving DecidableEq, Repr

/-- The `data` object of a catalog response. -/
structure CatalogData where
  goods : Option Goods
  filters : Option FiltersBlock
deriving DecidableEq, Repr

/-- A decoded catalog response; `data = none` models a response without
the `data` key. -/
structure CatalogResp where
  data : Option CatalogData
deriving DecidableEq, Repr

/-- The guard `response and 'data' in response and 'goods' in
response['data']` of the pagination walks: the goods block of a fetched
page, or `none` when the fetch failed or the shape is missing. -/
def pageGoods (r : Option CatalogResp) : Option Goods :=
  match r with
  | some resp =>
    match resp.data with
    | some d => d.goods
    | none => none
  | none => none

/-- The ids contributed by one fetched page: its `data.goods.ids` when
the page has the expected shape and the key, else nothing. -/
def pageIds (r : Option CatalogResp) : List Nat :=
  match pageGoods r with
  | some g => g.ids.getD []
  | none => []

/-- The shared pagination walk of `_process_simple_pagination`,
`_process_with_sort`, `_process_single_filter` and
`_process_filter_sort_combo` (the source repeats the identical loop
with different URLs): fetch page 1; on failure or missing
`data.goods` shape return the empty set; otherwise accumulate the
first page's ids, read `total_pages` (default 1) and walk pages
2..total_pages sequentially, accumulating the ids of each page that
has the expected shape.  Returns the pages requested, in order,
together with the accumulated id set. -/
def paginationWalk (fetch : Nat → Option CatalogResp) :
    List Nat × Finset Nat :=
  match pageGoods (fetch 1) with
  | none => ([1], ∅)
  | some g =>
    let firstIds : Finset Nat := (g.ids.getD []).toFinset
    let total := g.total_pages.getD 1
    let rest := List.range' 2 (total - 1)
    (1 :: rest,
     rest.foldl (fun acc p => acc ∪ (pageIds (fetch p)).toFinset) firstIds)

/-- The flavour of catalog query a traversal uses: the page-indexed URL
family of `_process_simple_pagination` (`plain`), `_process_with_sort`
(`sorted`), `_process_single_filter` (`filtered`) and
`_process_filter_sort_combo` (`filteredSorted`), for one fixed brand
and category. -/
inductive Query
  | plain
  | sorted (s : String)
  | filtered (fid v : String)
  | filteredSorted (fid v s : String)
deriving DecidableEq, Repr

/-- Event recorded while processing one brand: a page request issued
against a query family, or the start of one pagination walk. -/
inductive BEvent
  | req (q : Query) (page : Nat)
  | walkStart (q : Query)
deriving DecidableEq, Repr

/-- A brand's response environment: the decoded catalog response for
each (query family, page) pair, `none` when `_make_request` returns
null for it.  The environment is a function, so repeated requests for
the same URL (as `_get_filter_id_by_name` and `_get_filter_values`
issue) receive the same response. -/
def BrandEnv : Type := Query → Nat → Option CatalogResp

/-- Events of one pagination walk over query family `q`: the walk
start marker followed by the page requests it issues. -/
def walkEvents (env : BrandEnv) (q : Query) : List BEvent :=
  BEvent.walkStart q :: (paginationWalk (fun p => env q p)).1.map (fun p => BEvent.req q p)

/-- Id set of one pagination walk over query family `q`. -/
def walkIds (env : BrandEnv) (q : Query) : Finset Nat :=
  (paginationWalk (fun p => env q p)).2

/-- Model of `_process_simple_pagination` for the brand: the plain
pagination walk. -/
def processSimplePagination (env : BrandEnv) : List Nat × Finset Nat :=
  paginationWalk (fun p => env Query.plain p)

/-- The `data.filters` block of a fetched response, or `none` when the
fetch failed or the shape is missing (the guard of
`_get_filter_id_by_name` and `_get_filter_values`). -/
def respFilters (r : Option CatalogResp) : Option FiltersBlock :=
  match r with
  | some resp =>
    match resp.data with
    | some d => d.filters
    | none => none
  | none => none

/-- Model of `_get_filter_id_by_name`: request the brand's plain first
page and return the id of the first options entry whose
`option_title` equals the requested filter name. -/
def getFilterIdByName (env : BrandEnv) (fname : String) : Option String :=
  match respFilters (env Query.plain 1) with
  | some fb =>
    match fb.options with
    | some opts =>
      (opts.find? (fun p => p.2.option_title == fname)).map (fun p => p.1)
    | none => none
  | none => none

/-- Model of `_get_filter_values`: request the brand's plain first page
again and return the `option_values` of the options entry keyed by
`fid`, defaulting to the empty list. -/
def getFilterValues (env : BrandEnv) (fid : String) : List FilterValue :=
  match respFilters (env Query.plain 1) with
  | some fb =>
    match fb.options with
    | some opts =>
      match opts.find? (fun p => p.1 == fid) with
      | some p => p.2.option_values
      | none => []
    | none => []
  | none => []

/-- Model of `_process_with_filters_and_sort` for one requested filter
name: resolve the filter id and its values (each via a plain page-1
request); when either is missing return the empty set; otherwise run
one walk per filter value (per filter value × sort order when sort
orders were requested) and union the results.  Also returns the events
in program order. -/
def processWithFiltersAndSort (env : BrandEnv) (fname : String)
    (sortList : List String) : List BEvent × Finset Nat :=
  let probe : List BEvent := [BEvent.req Query.plain 1]
  match getFilterIdByName env fname with
  | none => (probe, ∅)
  | some fid =>
    let probes := probe ++ [BEvent.req Query.plain 1]
    match getFilterValues env fid with
    | [] => (probes, ∅)
    | v :: vs =>
      -- source: `if sort_list:` runs the combo loops, `else` the
      -- single-filter loop; the branches are swapped here to match on
      -- emptiness, with identical semantics.
      if sortList.isEmpty then
        (v :: vs).foldl (fun acc fv =>
          (acc.1 ++ walkEvents env (Query.filtered fid fv.option_value_name),
           acc.2 ∪ walkIds env (Query.filtered fid fv.option_value_name)))
          (probes, ∅)
      else
        (v :: vs).foldl (fun acc fv =>
          sortList.foldl (fun acc2 s =>
            (acc2.1 ++ walkEvents env (Query.filteredSorted fid fv.option_value_name s),
             acc2.2 ∪ walkIds env (Query.filteredSorted fid fv.option_value_name s)))
            acc)
          (probes, ∅)

/-- Model of `_process_default_parsing`: with a non-empty sort list run
one `_process_with_sort` walk per sort order and union the results,
else one plain pagination walk. -/
def processDefaultParsing (env : BrandEnv) (sortList : List String) :
    List BEvent × Finset Nat :=
  if sortList.isEmpty then
    (walkEvents env Query.plain, walkIds env Query.plain)
  else
    sortList.foldl (fun acc s =>
      (acc.1 ++ walkEvents env (Query.sorted s),
       acc.2 ∪ walkIds env (Query.sorted s))) ([], ∅)

/-- One iteration of the filter loop of `get_product_ids_for_brand`:
run `_process_with_filters_and_sort` for the filter name; when it
returns a non-empty id set, mark `found_any_filter` and add the ids. -/
def filterStep (env : BrandEnv) (sortList : List String)
    (st : List BEvent × Finset Nat × Bool) (fname : String) :
    List BEvent × Finset Nat × Bool :=
  let r := processWithFiltersAndSort env fname sortList
  if r.2 = ∅ then (st.1 ++ r.1, st.2.1, st.2.2)
  else (st.1 ++ r.1, st.2.1 ∪ r.2, true)

/-- Model of `get_product_ids_for_brand`: the filter loop followed by
the `default_parse` / fallback / plain-pagination branch chain of the
source, returning the events in program order and the brand's id set. -/
def getProductIdsForBrand (env : BrandEnv) (filters sortList : List String)
    (default_parse : Bool) : List BEvent × Finset Nat :=
  let fp := filters.foldl (filterStep env sortList) ([], ∅, false)
  if default_parse then
    let d := processDefaultParsing env sortList
    (fp.1 ++ d.1, fp.2.1 ∪ d.2)
  else if filters.isEmpty = false ∧ fp.2.2 = false ∧ default_parse = false then
    let d := processDefaultParsing env sortList
    (fp.1 ++ d.1, fp.2.1 ∪ d.2)
  else if filters.isEmpty ∧ sortList.isEmpty ∧ default_parse = false then
    -- source: `all_product_ids = self._process_simple_pagination(...)`
    (fp.1 ++ walkEvents env Query.plain, walkIds env Query.plain)
  else
    (fp.1, fp.2.1)

/-- The walks started within an event list, in order. -/
def walkStarts (evs : List BEvent) : List Query :=
  evs.filterMap (fun e =>
    match e with
    | .walkStart q => some q
    | .req _ _ => none)

/-- Whether a query family belongs to a default (no-filter) traversal:
plain pagination or a sort-only walk. -/
def isDefaultWalk : Query → Bool
  | .plain => true
  | .sorted _ => true
  | .filtered _ _ => false
  | .filteredSorted _ _ _ => false

/-- Model of `ApplicationRozetka.collect_product_ids_with_workers`
after brand discovery: one `get_product_ids_for_brand` task per brand,
results merged by set union in completion order.  `envOf` gives each
brand's response environment (each worker owns an independent fetch
executor over the same remote data), and `order` is the order in which
the concurrent tasks complete — an arbitrary permutation of the brand
list. -/
def collectProductIdsWithWorkers {β : Type} (envOf : β → BrandEnv)
    (fl sl : List String) (dp : Bool) (order : List β) : Finset Nat :=
  order.foldl
    (fun acc b => acc ∪ (getProductIdsForBrand (envOf b) fl sl dp).2) ∅

/-- Model of the sequential `get_all_product_ids_for_category` after
brand discovery: the same per-brand processing, merged in brand-list
order. -/
def getAllProductIdsForCategory {β : Type} (envOf : β → BrandEnv)
    (fl sl : List String) (dp : Bool) (brands : List β) : Finset Nat :=
  brands.foldl
    (fun acc b => acc ∪ (getProductIdsForBrand (envOf b) fl sl dp).2) ∅

/-- Body of the batch partitioning, structurally recursive on a fuel
that bounds the number of batches (each step consumes at least one
element, so the input length is enough fuel). -/
def makeBatchesAux (S : Nat) : Nat → List α → List (List α)
  | 0, _ => []
  | _, [] => []
  | fuel + 1, a :: l =>
    (a :: l).take S :: makeBatchesAux S fuel ((a :: l).drop S)

/-- The batch partitioning of `process_batches_with_workers`:
`[lst[i:i + batch_size] for i in range(0, total, batch_size)]`,
written as the equivalent recursion on the list.  A zero batch size
(which raises in the source) yields no batches. -/
def makeBatches (l : List α) (S : Nat) : List (List α) :=
  if S = 0 then [] else makeBatchesAux S l.length l

/-- Collaborator environment of the entry loop `start`: the category
URL parse (`category_name_and_id`), the ids collected per category id,
and whether the collection phase or the batch/save phase raises for a
category (any such exception is caught by the per-category
`try`/`except`). -/
structure StartEnv where
  parseCat : String → Option (String × Nat)
  collectIds : Nat → Finset Nat
  collectRaises : Nat → Bool
  processRaises : Nat → Bool

/-- Outcome of one category in the entry loop. -/
inductive StartEvent
  | skippedBadUrl (u : String)
  | errorCaught (u : String)
  | emptyAbort (u : String)
  | processed (u : String)
deriving DecidableEq, Repr

/-- The body of `start` for the list of category URLs: a non-matching
URL is skipped (`continue`); an exception while collecting ids or while
processing batches/saving is caught and the loop continues; an empty
collected id set hits `return`, ending the whole loop; otherwise the
category is processed to completion. -/
def startLoop (env : StartEnv) : List String → List StartEvent
  | [] => []
  | u :: rest =>
    match env.parseCat u with
    | none => .skippedBadUrl u :: startLoop env rest
    | some (_, cid) =>
      if env.collectRaises cid then .errorCaught u :: startLoop env rest
      else if env.collectIds cid = ∅ then [.emptyAbort u]
      else if env.processRaises cid then .errorCaught u :: startLoop env rest
      else .processed u :: startLoop env rest

/-- Model of `ApplicationRozetka.start`: an empty category list returns
at once, otherwise the loop runs. -/
def start (env : StartEnv) (categories : List String) : List StartEvent :=
  if categories.isEmpty then [] else startLoop env categories

/-- The outcome `start` gives one category URL when its turn is
reached, read off the loop body. -/
def outcomeOf (env : StartEnv) (u : String) : StartEvent :=
  match env.parseCat u with
  | none => .skippedBadUrl u
  | some (_, cid) =>
    if env.collectRaises cid then .errorCaught u
    else if env.collectIds cid = ∅ then .emptyAbort u
    else if env.processRaises cid then .errorCaught u
    else .processed u

/-- Whether a category URL, when reached, takes the empty-id-set
`return` path of `start`. -/
def emptyAborts (env : StartEnv) (u : String) : Bool :=
  match env.parseCat u with
  | none => false
  | some (_, cid) =>
    !env.collectRaises cid && decide (env.collectIds cid = ∅)

/-- Brand environment in which every request fails. -/
def envTriv : BrandEnv := fun _ _ => none

/-- Brand environment for a two-page plain catalog: page 1 carries ids
1 and 2 and reports two total pages, page 2 carries id 3. -/
def envC2 : BrandEnv := fun q p =>
  match q, p with
  | Query.plain, 1 => some ⟨some ⟨some ⟨some [1, 2], some 2⟩, none⟩⟩
  | Query.plain, 2 => some ⟨some ⟨some ⟨some [3], none⟩, none⟩⟩
  | _, _ => none

/-- Brand environment in which the plain first page exposes a filter
dimension titled "diagonal" (id "f1", one value "v1") and one good
with id 7, while every filtered request fails — so the requested
filter dimension is found but its traversal collects no ids. -/
def envC3 : BrandEnv := fun q p =>
  match q, p with
  | Query.plain, 1 =>
    some ⟨some ⟨some ⟨some [7], some 1⟩,
          some ⟨some [("f1", ⟨"diagonal", [⟨"v1", 5, "V1"⟩]⟩)]⟩⟩⟩
  | _, _ => none

/-- Entry-loop environment with two well-formed category URLs: "u1"
collects an empty id set, "u2" collects id 5; nothing raises and any
other URL fails to parse. -/
def envC9 : StartEnv where
  parseCat := fun u =>
    if u = "u1" then some ("CatOne", 1)
    else if u = "u2" then some ("CatTwo", 2)
    else none
  collectIds := fun cid => if cid = 2 then {5} else ∅
  collectRaises := fun _ => false
  processRaises := fun _ => false

/-- Per-brand environment family for the scheduler witness: brand 0
has a one-page plain catalog with ids 1 and 2, brand 1 one with ids
2 and 3, any other brand nothing. -/
def envSched : Nat → BrandEnv := fun b q p =>
  match b, q, p with
  | 0, Query.plain, 1 => some ⟨some ⟨some ⟨some [1, 2], some 1⟩, none⟩⟩
  | 1, Query.plain, 1 => some ⟨some ⟨some ⟨some [2, 3], some 1⟩, none⟩⟩
  | _, _, _ => none

theorem makeRequestFrom_succ (env : Nat → Outcome) (m k rem : Nat) :
    makeRequestFrom env m k (rem + 1) =
      match attemptReturns (env k) k m with
      | some res => (res, [⟨env k, attemptPost (env k) k m⟩])
      | none =>
        ((makeRequestFrom env m (k + 1) rem).1,
          ⟨env k, attemptPost (env k) k m⟩ :: (makeRequestFrom env m (k + 1) rem).2) := by
  simp only [makeRequestFrom]
  cases o : env k with
  | okJson d =>
    cases d with
    | some p => simp [attemptReturns, attemptPost]
    | none =>
      by_cases hk : k = m - 1 <;> simp [attemptReturns, attemptPost, hk]
  | okHtml => simp [attemptReturns, attemptPost]
  | okOther => simp [attemptReturns, attemptPost]
  | status c =>
    by_cases h403 : c = 403
    · subst h403
      by_cases hk : k = m - 1 <;> simp [attemptReturns, attemptPost, hk]
    · by_cases h429 : c = 429
      · subst h429
        by_cases hk : k = m - 1 <;> simp [attemptReturns, attemptPost, hk]
      · by_cases h404 : c = 404
        · subst h404
          simp [attemptReturns, attemptPost]
        · by_cases h5 : 500 ≤ c ∧ c < 600 <;> by_cases hk : k = m - 1 <;>
            simp [attemptReturns, attemptPost, h403, h429, h404, h5, hk]
  | exn e =>
    by_cases hk : k = m - 1 <;> simp [attemptReturns, attemptPost, hk]

theorem mrf_len_pos (env : Nat → Outcome) (m k rem : Nat) (h : 1 ≤ rem) :
    1 ≤ (makeRequestFrom env m k rem).2.length := by
  cases rem with
  | zero => omega
  | succ rem =>
    rw [makeRequestFrom_succ]
    cases hr : attemptReturns (env k) k m <;> simp

theorem mrf_404_aux (env : Nat → Outcome) (m : Nat) :
    ∀ rem k i rec,
      (makeRequestFrom env m k rem).2[i]? = some rec →
      rec.outcome = .status 404 →
      (makeRequestFrom env m k rem).1 = none ∧
      (makeRequestFrom env m k rem).2.length = i + 1 ∧ rec.post = [] := by
  intro rem
  induction rem with
  | zero =>
    intro k i rec hget hout
    simp [makeRequestFrom] at hget
  | succ rem IH =>
    intro k i rec hget hout
    rw [makeRequestFrom_succ] at hget ⊢
    cases hr : attemptReturns (env k) k m with
    | some res =>
      rw [hr] at hget
      dsimp only at hget
      cases i with
      | zero =>
        simp only [List.getElem?_cons_zero, Option.some.injEq] at hget
        subst hget
        dsimp only at hout
        rw [hout] at hr ⊢
        simp [attemptReturns] at hr
        simp [attemptPost, ← hr]
      | succ j => simp at hget
    | none =>
      rw [hr] at hget
      dsimp only at hget
      cases i with
      | zero =>
        simp only [List.getElem?_cons_zero, Option.some.injEq] at hget
        subst hget
        dsimp only at hout
        rw [hout] at hr
        simp [attemptReturns] at hr
      | succ j =>
        simp only [List.getElem?_cons_succ] at hget
        have h2 := IH (k + 1) j rec hget hout
        simp [h2.1, h2.2.1, h2.2.2]

theorem mrf_429_aux (m : Nat) :
    ∀ rem k, k + rem = m →
      (makeRequestFrom envAll429 m k rem).1 = none ∧
      (makeRequestFrom envAll429 m k rem).2.length = rem ∧
      ∀ i rec, (makeRequestFrom envAll429 m k rem).2[i]? = some rec →
        rec.outcome = .status 429 ∧ Sleep.penalty (5 * (k + i + 1)) ∈ rec.post := by
  intro rem
  induction rem with
  | zero =>
    intro k hkm
    simp [makeRequestFrom]
  | succ rem IH =>
    intro k hkm
    rw [makeRequestFrom_succ]
    have henv : envAll429 k = .status 429 := rfl
    rw [henv]
    by_cases hk : k = m - 1
    · have hrem : rem = 0 := by omega
      subst hrem
      have h0 : attemptReturns (.status 429) k m = some none := by
        simp [attemptReturns, hk]
      rw [h0]
      dsimp only
      refine ⟨rfl, rfl, ?_⟩
      intro i rec hget
      cases i with
      | zero =>
        simp only [List.getElem?_cons_zero, Option.some.injEq] at hget
        subst hget
        simp [attemptPost, hk]
      | succ j => simp at hget
    · have h0 : attemptReturns (.status 429) k m = none := by
        simp [attemptReturns, hk]
      rw [h0]
      dsimp only
      obtain ⟨ih1, ih2, ih3⟩ := IH (k + 1) (by omega)
      refine ⟨ih1, by simp [ih2], ?_⟩
      intro i rec hget
      cases i with
      | zero =>
        simp only [List.getElem?_cons_zero, Option.some.injEq] at hget
        subst hget
        simp [attemptPost, hk]
      | succ j =>
        simp only [List.getElem?_cons_succ] at hget
        have h3 := ih3 j rec hget
        refine ⟨h3.1, ?_⟩
        have he : 5 * (k + 1 + j + 1) = 5 * (k + (j + 1) + 1) := by omega
        rw [← he]
        exact h3.2

theorem mrf_dfail_aux (env : Nat → Outcome) (m : Nat) :
    ∀ rem k, k + rem = m → ∀ i rec,
      (makeRequestFrom env m k rem).2[i]? = some rec →
      rec.outcome = .okJson none →
      rec.post = [] ∧
      (k + i + 1 = m → (makeRequestFrom env m k rem).1 = none ∧
        (makeRequestFrom env m k rem).2.length = i + 1) ∧
      (k + i + 1 < m → i + 1 < (makeRequestFrom env m k rem).2.length) := by
  intro rem
  induction rem with
  | zero =>
    intro k hkm i rec hget hout
    simp [makeRequestFrom] at hget
  | succ rem IH =>
    intro k hkm i rec hget hout
    rw [makeRequestFrom_succ] at hget ⊢
    cases hr : attemptReturns (env k) k m with
    | some res =>
      rw [hr] at hget
      dsimp only at hget ⊢
      cases i with
      | zero =>
        simp only [List.getElem?_cons_zero, Option.some.injEq] at hget
        subst hget
        dsimp only at hout
        rw [hout] at hr ⊢
        by_cases hk : k = m - 1
        · simp only [attemptReturns, hk, if_true, Option.some.injEq] at hr
          refine ⟨by simp [attemptPost], ?_, ?_⟩
          · intro hm
            exact ⟨hr.symm, rfl⟩
          · intro hm
            omega
        · simp [attemptReturns, hk] at hr
      | succ j => simp at hget
    | none =>
      rw [hr] at hget
      dsimp only at hget ⊢
      have hk : ¬k = m - 1 := by
        intro hk
        cases henv : env k with
        | okJson d =>
          cases d with
          | some p => rw [henv] at hr; simp [attemptReturns] at hr
          | none => rw [henv] at hr; simp [attemptReturns, hk] at hr
        | okHtml => rw [henv] at hr; simp [attemptReturns] at hr
        | okOther => rw [henv] at hr; simp [attemptReturns] at hr
        | status c =>
          rw [henv] at hr
          by_cases h404 : c = 404 <;> simp [attemptReturns, h404, hk] at hr
        | exn e => rw [henv] at hr; simp [attemptReturns, hk] at hr
      cases i with
      | zero =>
        simp only [List.getElem?_cons_zero, Option.some.injEq] at hget
        subst hget
        dsimp only at hout
        refine ⟨by simp [attemptPost, hout], ?_, ?_⟩
        · intro hm
          omega
        · intro hm
          have hlen := mrf_len_pos env m (k + 1) rem (by omega)
          simp
          omega
      | succ j =>
        simp only [List.getElem?_cons_succ] at hget
        obtain ⟨p1, p2, p3⟩ := IH (k + 1) (by omega) j rec hget hout
        refine ⟨p1, ?_, ?_⟩
        · intro hm
          obtain ⟨q1, q2⟩ := p2 (by omega)
          exact ⟨q1, by simp [q2]⟩
        · intro hm
          have := p3 (by omega)
          simp
          omega

/-- C4: if `_make_request` receives an HTTP 404 response on any attempt,
it returns null immediately: the 404 attempt is the last one in the
trace (no further attempts are issued), and no penalty or backoff sleep
follows it. -/
theorem claim_C4 (env : Nat → Outcome) (m i : Nat) (rec : AttemptRec)
    (hget : (makeRequest env m).2[i]? = some rec)
    (hout : rec.outcome = .status 404) :
    (makeRequest env m).1 = none ∧ (makeRequest env m).2.length = i + 1 ∧
      rec.post = [] :=
  mrf_404_aux env m m 0 i rec hget hout

/-- Witness for C4 at a concrete input: three-attempt budget, first
response 404. -/
theorem claim_C4_witness :
    (makeRequest envAll404 3).1 = none ∧
    (makeRequest envAll404 3).2.length = 0 + 1 ∧
    (AttemptRec.mk (Outcome.status 404) []).post = [] :=
  claim_C4 envAll404 3 0 ⟨.status 404, []⟩ (by decide) (by decide)

/-- C5: when every attempt returns HTTP 429, `_make_request` performs
exactly `max_retries` attempts and returns null, and after each 429
attempt (before the next one — the post-sleeps of an attempt precede
the next attempt in the trace) it sleeps `5 * (attempt_index + 1)`
seconds. -/
theorem claim_C5 (m : Nat) :
    (makeRequest envAll429 m).1 = none ∧
    (makeRequest envAll429 m).2.length = m ∧
    ∀ i rec, (makeRequest envAll429 m).2[i]? = some rec →
      rec.outcome = .status 429 ∧ Sleep.penalty (5 * (i + 1)) ∈ rec.post := by
  obtain ⟨h1, h2, h3⟩ := mrf_429_aux m m 0 (by omega)
  refine ⟨h1, h2, ?_⟩
  intro i rec hget
  have h4 := h3 i rec hget
  simpa using h4

/-- Witness for C5 at a concrete input: budget of two attempts. -/
theorem claim_C5_witness :
    (makeRequest envAll429 2).1 = none ∧
    (makeRequest envAll429 2).2.length = 2 ∧
    ((AttemptRec.mk (Outcome.status 429) [Sleep.penalty 5, Sleep.backoff 0]).outcome
        = .status 429 ∧
      Sleep.penalty (5 * (0 + 1)) ∈
        (AttemptRec.mk (Outcome.status 429) [Sleep.penalty 5, Sleep.backoff 0]).post) :=
  ⟨(claim_C5 2).1, (claim_C5 2).2.1, (claim_C5 2).2.2 0 _ (by decide)⟩

/-- C6 (amended): an HTTP 200 JSON response that fails to decode
performs no post-attempt sleep and is retried — the attempt counts
against the budget and, when attempts remain, another attempt follows —
unless it is the final attempt, in which case the call returns plain
null (not a distinguishable decode-failure outcome). -/
theorem claim_C6_amended (env : Nat → Outcome) (m i : Nat) (rec : AttemptRec)
    (hget : (makeRequest env m).2[i]? = some rec)
    (hout : rec.outcome = .okJson none) :
    rec.post = [] ∧
    (i + 1 = m → (makeRequest env m).1 = none ∧ (makeRequest env m).2.length = m) ∧
    (i + 1 < m → i + 1 < (makeRequest env m).2.length) := by
  simp only [makeRequest] at hget ⊢
  obtain ⟨p1, p2, p3⟩ := mrf_dfail_aux env m m 0 (by omega) i rec hget hout
  refine ⟨p1, ?_, ?_⟩
  · intro hm
    obtain ⟨q1, q2⟩ := p2 (by omega)
    exact ⟨q1, by omega⟩
  · intro hm
    exact p3 (by omega)

/-- Counterexample for C6 as stated: with a two-attempt budget and
every response an undecodable 200 JSON, the call returns plain null —
the very value a 404 run returns — rather than failing with a
distinguishable DecodeError outcome. -/
theorem claim_C6_counterexample :
    (makeRequest envAllDecodeFail 2).1 = none ∧
    (makeRequest envAllDecodeFail 2).1 = (makeRequest envAll404 2).1 := by decide

/-- Witness for C6 (amended) at a concrete input: two-attempt budget,
decode failure on the final attempt. -/
theorem claim_C6_witness :
    (AttemptRec.mk (Outcome.okJson none) []).post = [] ∧
    (1 + 1 = 2 → (makeRequest envAllDecodeFail 2).1 = none ∧
      (makeRequest envAllDecodeFail 2).2.length = 2) ∧
    (1 + 1 < 2 → 1 + 1 < (makeRequest envAllDecodeFail 2).2.length) :=
  claim_C6_amended envAllDecodeFail 2 1 ⟨.okJson none, []⟩ (by decide) (by decide)


theorem foldl_union_eq {γ : Type} (f : γ → Finset Nat) (l : List γ)
    (s : Finset Nat) :
    l.foldl (fun a x => a ∪ f x) s
      = s ∪ l.foldr (fun x acc => f x ∪ acc) ∅ := by
  induction l generalizing s with
  | nil => simp
  | cons x xs IH =>
    simp only [List.foldl_cons, List.foldr_cons]
    rw [IH, Finset.union_assoc]

theorem paginationWalk_spec (fetch : Nat → Option CatalogResp) :
    (∀ g N, pageGoods (fetch 1) = some g → g.total_pages = some N →
      1 ≤ N →
      (paginationWalk fetch).1 = List.range' 1 N ∧
      (paginationWalk fetch).2 =
        (List.range' 1 N).foldr
          (fun p acc => (pageIds (fetch p)).toFinset ∪ acc) ∅) ∧
    (pageGoods (fetch 1) = none → paginationWalk fetch = ([1], ∅)) := by
  constructor
  · intro g N hg hN hN1
    unfold paginationWalk
    rw [hg]
    dsimp only
    rw [hN]
    simp only [Option.getD_some]
    have hsplit : N - 1 + 1 = N := by omega
    constructor
    · rw [← hsplit, List.range'_succ]
      norm_num
    · rw [foldl_union_eq, ← hsplit, List.range'_succ]
      simp only [List.foldr_cons]
      have hids : pageIds (fetch 1) = g.ids.getD [] := by
        unfold pageIds
        rw [hg]
      rw [hids]
      norm_num
  · intro hnone
    unfold paginationWalk
    rw [hnone]

/-- C2: when page 1 of `_process_simple_pagination` succeeds with the
expected `data.goods` shape and reports `total_pages = N` (with
`N ≥ 1`, as the data model guarantees), the walk requests exactly the
pages 1, 2, ..., N in that order — N requests in total — and returns
the union of the ids of the pages that succeed (a failed or malformed
page contributes the empty set); if the first page fails or lacks the
`data.goods` shape, it returns the empty set after the single initial
request. -/
theorem claim_C2 (env : BrandEnv) :
    (∀ g N, pageGoods (env Query.plain 1) = some g → g.total_pages = some N →
      1 ≤ N →
      (processSimplePagination env).1 = List.range' 1 N ∧
      (processSimplePagination env).1.length = N ∧
      (processSimplePagination env).2 =
        (List.range' 1 N).foldr
          (fun p acc => (pageIds (env Query.plain p)).toFinset ∪ acc) ∅) ∧
    (pageGoods (env Query.plain 1) = none →
      processSimplePagination env = ([1], ∅)) := by
  obtain ⟨h1, h2⟩ := paginationWalk_spec (fun p => env Query.plain p)
  constructor
  · intro g N hg hN hN1
    obtain ⟨p1, p2⟩ := h1 g N hg hN hN1
    refine ⟨p1, ?_, p2⟩
    rw [show (processSimplePagination env).1 = List.range' 1 N from p1]
    exact List.length_range' 1 1 N
  · exact h2

/-- Witness for C2 at a concrete input: a two-page catalog. -/
theorem claim_C2_witness :
    (processSimplePagination envC2).1 = List.range' 1 2 ∧
    (processSimplePagination envC2).1.length = 2 ∧
    (processSimplePagination envC2).2 =
      (List.range' 1 2).foldr
        (fun p acc => (pageIds (envC2 Query.plain p)).toFinset ∪ acc) ∅ :=
  (claim_C2 envC2).1 ⟨some [1, 2], some 2⟩ 2 (by decide) (by decide) (by decide)

theorem walkStarts_nil : walkStarts [] = [] := rfl

theorem walkStarts_append (a b : List BEvent) :
    walkStarts (a ++ b) = walkStarts a ++ walkStarts b := by
  unfold walkStarts
  exact List.filterMap_append a b _

theorem walkStarts_walkEvents (env : BrandEnv) (q : Query) :
    walkStarts (walkEvents env q) = [q] := by
  unfold walkStarts walkEvents
  simp only [List.filterMap_cons]
  have h : ∀ l : List Nat,
      List.filterMap
        (fun e => match e with
          | BEvent.walkStart q => some q
          | BEvent.req _ _ => none)
        (l.map (fun p => BEvent.req q p)) = [] := by
    intro l
    induction l with
    | nil => rfl
    | cons p l IH => simp [IH]
  simp [h]

theorem foldl_events_ids {γ : Type} (W : γ → List BEvent) (I : γ → Finset Nat) :
    ∀ (l : List γ) (acc : List BEvent × Finset Nat),
      l.foldl (fun a x => (a.1 ++ W x, a.2 ∪ I x)) acc
        = (acc.1 ++ l.flatMap W, acc.2 ∪ l.foldr (fun x s => I x ∪ s) ∅) := by
  intro l
  induction l with
  | nil => intro acc; simp
  | cons x xs IH =>
    intro acc
    simp only [List.foldl_cons, List.flatMap_cons, List.foldr_cons]
    rw [IH]
    simp [List.append_assoc, Finset.union_assoc]

theorem walkStarts_flatMap (env : BrandEnv) {γ : Type} (F : γ → Query)
    (l : List γ) :
    walkStarts (l.flatMap (fun x => walkEvents env (F x))) = l.map F := by
  induction l with
  | nil => rfl
  | cons x xs IH =>
    rw [List.flatMap_cons, walkStarts_append, walkStarts_walkEvents, IH]
    rfl

theorem mem_walkStarts_flatMap {γ : Type} (G : γ → List BEvent)
    (l : List γ) (q : Query)
    (hq : q ∈ walkStarts (l.flatMap G)) : ∃ x ∈ l, q ∈ walkStarts (G x) := by
  induction l with
  | nil => simp [walkStarts] at hq
  | cons x xs IH =>
    rw [List.flatMap_cons, walkStarts_append, List.mem_append] at hq
    rcases hq with hq | hq
    · exact ⟨x, List.mem_cons_self x xs, hq⟩
    · obtain ⟨y, hy, hqy⟩ := IH hq
      exact ⟨y, List.mem_cons_of_mem x hy, hqy⟩

theorem pwfas_no_default (env : BrandEnv) (fname : String) (sl : List String) :
    (walkStarts (processWithFiltersAndSort env fname sl).1).any isDefaultWalk
      = false := by
  unfold processWithFiltersAndSort
  cases hid : getFilterIdByName env fname with
  | none => rfl
  | some fid =>
    dsimp only
    cases hvals : getFilterValues env fid with
    | nil => rfl
    | cons v vs =>
      dsimp only
      by_cases hsl : sl.isEmpty
      · rw [if_pos hsl]
        simp only [foldl_events_ids]
        rw [walkStarts_append, List.any_append, Bool.or_eq_false_iff]
        refine ⟨by decide, ?_⟩
        rw [List.any_eq_false]
        intro q hq
        obtain ⟨fv, -, hqv⟩ := mem_walkStarts_flatMap _ _ q hq
        rw [walkStarts_walkEvents] at hqv
        rw [List.mem_singleton] at hqv
        rw [hqv]
        simp [isDefaultWalk]
      · rw [if_neg hsl]
        simp only [foldl_events_ids]
        rw [walkStarts_append, List.any_append, Bool.or_eq_false_iff]
        refine ⟨by decide, ?_⟩
        rw [List.any_eq_false]
        intro q hq
        obtain ⟨fv, -, hqv⟩ := mem_walkStarts_flatMap _ _ q hq
        obtain ⟨s, -, hqs⟩ := mem_walkStarts_flatMap _ _ q hqv
        rw [walkStarts_walkEvents] at hqs
        rw [List.mem_singleton] at hqs
        rw [hqs]
        simp [isDefaultWalk]

theorem pwfas_unmatched (env : BrandEnv) (fname : String) (sl : List String)
    (h : getFilterIdByName env fname = none) :
    processWithFiltersAndSort env fname sl = ([BEvent.req Query.plain 1], ∅) := by
  unfold processWithFiltersAndSort
  rw [h]

theorem filterPhase_spec (env : BrandEnv) (sl : List String) :
    ∀ (fl : List String) (st : List BEvent × Finset Nat × Bool),
      fl.foldl (filterStep env sl) st
        = (st.1 ++ fl.flatMap (fun f => (processWithFiltersAndSort env f sl).1),
           st.2.1 ∪ fl.foldr
             (fun f acc => (processWithFiltersAndSort env f sl).2 ∪ acc) ∅,
           st.2.2 || fl.any
             (fun f => !decide ((processWithFiltersAndSort env f sl).2 = ∅))) := by
  intro fl
  induction fl with
  | nil => intro st; simp
  | cons f fs IH =>
    intro st
    rw [List.foldl_cons]
    rw [IH]
    unfold filterStep
    by_cases hf : (processWithFiltersAndSort env f sl).2 = ∅
    · simp [hf, List.append_assoc]
    · simp [hf, List.append_assoc, Finset.union_assoc]

theorem pdp_events_ids (env : BrandEnv) (sl : List String) :
    processDefaultParsing env sl =
      (if sl.isEmpty then walkEvents env Query.plain
       else sl.flatMap (fun s => walkEvents env (Query.sorted s)),
       if sl.isEmpty then walkIds env Query.plain
       else sl.foldr (fun s acc => walkIds env (Query.sorted s) ∪ acc) ∅) := by
  unfold processDefaultParsing
  by_cases hsl : sl.isEmpty <;> simp [hsl, foldl_events_ids]

theorem pdp_has_default (env : BrandEnv) (sl : List String) :
    (walkStarts (processDefaultParsing env sl).1).any isDefaultWalk = true := by
  rw [pdp_events_ids]
  by_cases hsl : sl.isEmpty
  · simp [hsl, walkStarts_walkEvents, isDefaultWalk]
  · have hne : sl ≠ [] := by
      intro hcon
      rw [hcon] at hsl
      simp at hsl
    obtain ⟨x, hx⟩ := List.exists_mem_of_ne_nil sl hne
    simp only [hsl, if_false, Bool.false_eq_true]
    rw [walkStarts_flatMap env Query.sorted sl]
    rw [List.any_eq_true]
    refine ⟨Query.sorted x, List.mem_map.mpr ⟨x, hx, rfl⟩, ?_⟩
    simp [isDefaultWalk]

/-- C10: with a non-empty sort list, no filters and `default_parse`
disabled, `get_product_ids_for_brand` returns the empty set and records
no event at all — no pagination walk is started and no page request is
issued on the brand's behalf. -/
theorem claim_C10 (env : BrandEnv) (sl : List String) (hsl : sl ≠ []) :
    getProductIdsForBrand env [] sl false = ([], ∅) := by
  have hsl2 : sl.isEmpty = false := List.isEmpty_eq_false.mpr hsl
  simp [getProductIdsForBrand, hsl2]

/-- Witness for C10 at a concrete input. -/
theorem claim_C10_witness :
    (["popularity"] : List String) ≠ [] ∧
    getProductIdsForBrand envTriv [] ["popularity"] false = ([], ∅) :=
  ⟨by decide, claim_C10 envTriv ["popularity"] (by decide)⟩

/-- C7: for a brand with `default_parse` enabled, no requested filter
dimension matching, and exactly two sort orders, exactly two default
traversal walks are started — one per sort order, in order — and the
brand's id set is the union of the two walks' id sets. -/
theorem claim_C7 (env : BrandEnv) (fl : List String) (s1 s2 : String)
    (hmatch : ∀ f ∈ fl, getFilterIdByName env f = none) :
    walkStarts (getProductIdsForBrand env fl [s1, s2] true).1
      = [Query.sorted s1, Query.sorted s2] ∧
    (getProductIdsForBrand env fl [s1, s2] true).2
      = walkIds env (Query.sorted s1) ∪ walkIds env (Query.sorted s2) := by
  unfold getProductIdsForBrand
  rw [filterPhase_spec]
  have hev : walkStarts
      (fl.flatMap (fun f => (processWithFiltersAndSort env f [s1, s2]).1)) = [] := by
    rw [List.eq_nil_iff_forall_not_mem]
    intro q hq
    obtain ⟨f, hf, hqf⟩ := mem_walkStarts_flatMap _ _ q hq
    rw [pwfas_unmatched env f _ (hmatch f hf)] at hqf
    simp [walkStarts] at hqf
  have hids : fl.foldr
      (fun f acc => (processWithFiltersAndSort env f [s1, s2]).2 ∪ acc) ∅ = ∅ := by
    clear hev
    induction fl with
    | nil => rfl
    | cons f fs IH =>
      rw [List.foldr_cons]
      rw [pwfas_unmatched env f _ (hmatch f (List.mem_cons_self f fs))]
      rw [IH (fun g hg => hmatch g (List.mem_cons_of_mem f hg))]
      simp
  rw [pdp_events_ids]
  simp only [eq_self_iff_true, if_true]
  constructor
  · rw [walkStarts_append, walkStarts_append]
    rw [hev]
    simp only [List.nil_append, List.isEmpty_cons, Bool.false_eq_true, if_false]
    simp [List.flatMap_cons, walkStarts_append, walkStarts_walkEvents,
      walkStarts_nil]
  · rw [hids]
    simp only [List.isEmpty_cons, Bool.false_eq_true, if_false]
    simp [Finset.union_assoc]

/-- Witness for C7 at a concrete input: one requested filter that
matches nothing, sort orders "popularity" and "price". -/
theorem claim_C7_witness :
    walkStarts
        (getProductIdsForBrand envTriv ["diagonal"] ["popularity", "price"] true).1
      = [Query.sorted "popularity", Query.sorted "price"] ∧
    (getProductIdsForBrand envTriv ["diagonal"] ["popularity", "price"] true).2
      = walkIds envTriv (Query.sorted "popularity")
          ∪ walkIds envTriv (Query.sorted "price") :=
  claim_C7 envTriv ["diagonal"] "popularity" "price" (by decide)

/-- Counterexample for C3 as stated: in `envC3` the requested filter
dimension "diagonal" IS found for the brand (id "f1"), yet the brand's
processing performs a fallback default traversal (a plain walk is
started) and its result {7} comes from that fallback — because the
found filter's tasks collected zero ids and `found_any_filter` is only
set by a non-empty result. -/
theorem claim_C3_counterexample :
    getFilterIdByName envC3 "diagonal" = some "f1" ∧
    Query.plain ∈ walkStarts (getProductIdsForBrand envC3 ["diagonal"] [] false).1 ∧
    (getProductIdsForBrand envC3 ["diagonal"] [] false).2 = {7} := by decide

/-- C3 (amended): with filters requested and `default_parse` disabled,
the fallback default traversal runs if and only if every requested
filter produced an empty id set (because the dimension was not found,
or was found but its traversals collected nothing); when some filter
produces a non-empty id set, no default traversal walk is performed
and the brand's result is exactly the union of the filter tasks'
results. -/
theorem claim_C3_amended (env : BrandEnv) (fl sl : List String) (hfl : fl ≠ []) :
    ((walkStarts (getProductIdsForBrand env fl sl false).1).any isDefaultWalk = true
      ↔ ∀ f ∈ fl, (processWithFiltersAndSort env f sl).2 = ∅) ∧
    ((∃ f ∈ fl, (processWithFiltersAndSort env f sl).2 ≠ ∅) →
      (walkStarts (getProductIdsForBrand env fl sl false).1).any isDefaultWalk
          = false ∧
      (getProductIdsForBrand env fl sl false).2
        = fl.foldr (fun f acc => (processWithFiltersAndSort env f sl).2 ∪ acc) ∅) := by
  have hfl2 : fl.isEmpty = false := List.isEmpty_eq_false.mpr hfl
  have hnd : (walkStarts
      (fl.flatMap (fun f => (processWithFiltersAndSort env f sl).1))).any
      isDefaultWalk = false := by
    rw [List.any_eq_false]
    intro q hq
    obtain ⟨f, hf, hqf⟩ := mem_walkStarts_flatMap _ _ q hq
    have hclean := pwfas_no_default env f sl
    rw [List.any_eq_false] at hclean
    exact hclean q hqf
  unfold getProductIdsForBrand
  rw [filterPhase_spec]
  by_cases hfound :
      fl.any (fun f => !decide ((processWithFiltersAndSort env f sl).2 = ∅)) = true
  · obtain ⟨f0, hf0, hne0⟩ := List.any_eq_true.mp hfound
    have hne0v : (processWithFiltersAndSort env f0 sl).2 ≠ ∅ := by
      simpa using hne0
    simp only [hfl2, hfound, Bool.false_or, Bool.true_eq_false, Bool.false_eq_true,
      and_false, false_and, if_false]
    simp only [List.nil_append]
    constructor
    · rw [hnd]
      simp only [Bool.false_eq_true, false_iff]
      intro hall
      exact hne0v (hall f0 hf0)
    · intro hex
      exact ⟨hnd, by simp⟩
  · rw [Bool.not_eq_true] at hfound
    have hall : ∀ f ∈ fl, (processWithFiltersAndSort env f sl).2 = ∅ := by
      intro f hf
      have := List.any_eq_false.mp hfound f hf
      simp at this
      exact this
    simp only [hfl2, hfound, Bool.false_or, Bool.false_eq_true, Bool.true_eq_false,
      and_false, false_and, if_false]
    simp only [List.nil_append]
    rw [if_pos ⟨trivial, trivial, trivial⟩]
    constructor
    · rw [walkStarts_append, List.any_append, hnd, Bool.false_or,
        pdp_has_default]
      simp only [true_iff]
      exact hall
    · intro hex
      obtain ⟨f, hf, hne⟩ := hex
      exact absurd (hall f hf) hne

/-- Witness for C3 (amended) at a concrete input. -/
theorem claim_C3_witness :
    ((walkStarts (getProductIdsForBrand envC3 ["diagonal"] [] false).1).any
        isDefaultWalk = true
      ↔ ∀ f ∈ (["diagonal"] : List String),
          (processWithFiltersAndSort envC3 f []).2 = ∅) ∧
    ((∃ f ∈ (["diagonal"] : List String),
        (processWithFiltersAndSort envC3 f []).2 ≠ ∅) →
      (walkStarts (getProductIdsForBrand envC3 ["diagonal"] [] false).1).any
          isDefaultWalk = false ∧
      (getProductIdsForBrand envC3 ["diagonal"] [] false).2
        = (["diagonal"] : List String).foldr
            (fun f acc => (processWithFiltersAndSort envC3 f []).2 ∪ acc) ∅) :=
  claim_C3_amended envC3 ["diagonal"] [] (by decide)

/-- C1: for every brand family and policy, the merged id set of the
concurrent scheduler — the union of per-brand results folded in any
completion order (any permutation of the brand list) — equals the
union over all brands of the id set `get_product_ids_for_brand`
produces for that brand alone, and equals the result of the
sequential `get_all_product_ids_for_category` on the same brands. -/
theorem claim_C1 {β : Type} (envOf : β → BrandEnv) (fl sl : List String)
    (dp : Bool) (brands order : List β) (hperm : order.Perm brands) :
    collectProductIdsWithWorkers envOf fl sl dp order
      = brands.foldr
          (fun b acc => (getProductIdsForBrand (envOf b) fl sl dp).2 ∪ acc) ∅ ∧
    collectProductIdsWithWorkers envOf fl sl dp order
      = getAllProductIdsForCategory envOf fl sl dp brands := by
  haveI hrc : RightCommutative
      (fun (acc : Finset Nat) (b : β) =>
        acc ∪ (getProductIdsForBrand (envOf b) fl sl dp).2) :=
    ⟨fun b a1 a2 => Finset.union_right_comm b _ _⟩
  have hcoll : collectProductIdsWithWorkers envOf fl sl dp order
      = getAllProductIdsForCategory envOf fl sl dp brands := by
    unfold collectProductIdsWithWorkers getAllProductIdsForCategory
    exact List.Perm.foldl_eq hperm ∅
  refine ⟨?_, hcoll⟩
  rw [hcoll]
  unfold getAllProductIdsForCategory
  rw [foldl_union_eq]
  exact Finset.empty_union _

/-- Witness for C1 at a concrete input: two brands, completion order
reversed from brand order. -/
theorem claim_C1_witness :
    (List.Perm [1, 0] [0, 1]) ∧
    (collectProductIdsWithWorkers envSched [] [] false [1, 0]
      = ([0, 1] : List Nat).foldr
          (fun b acc => (getProductIdsForBrand (envSched b) [] [] false).2 ∪ acc)
          ∅ ∧
    collectProductIdsWithWorkers envSched [] [] false [1, 0]
      = getAllProductIdsForCategory envSched [] [] false [0, 1]) :=
  ⟨by decide, claim_C1 envSched [] [] false [0, 1] [1, 0] (by decide)⟩

theorem mba_nil {α : Type} (S fuel : Nat) :
    makeBatchesAux S fuel ([] : List α) = [] := by
  cases fuel <;> rfl

theorem mba_flatten {α : Type} (S : Nat) (hS : 0 < S) :
    ∀ (fuel : Nat) (l : List α), l.length ≤ fuel →
      (makeBatchesAux S fuel l).flatten = l := by
  intro fuel
  induction fuel with
  | zero =>
    intro l h
    have hl : l = [] := List.length_eq_zero.mp (Nat.le_antisymm h (Nat.zero_le _))
    rw [hl]
    rfl
  | succ fuel IH =>
    intro l h
    cases l with
    | nil => rfl
    | cons a t =>
      simp only [List.length_cons] at h
      simp only [makeBatchesAux, List.flatten_cons]
      rw [IH (List.drop S (a :: t))
        (by rw [List.length_drop]; simp only [List.length_cons]; omega)]
      exact List.take_append_drop S (a :: t)

theorem mba_length {α : Type} (S : Nat) (hS : 0 < S) :
    ∀ (fuel : Nat) (l : List α), l.length ≤ fuel →
      (makeBatchesAux S fuel l).length = (l.length + S - 1) / S := by
  intro fuel
  induction fuel with
  | zero =>
    intro l h
    have hl : l = [] := List.length_eq_zero.mp (Nat.le_antisymm h (Nat.zero_le _))
    rw [hl]
    show 0 = (0 + S - 1) / S
    rw [Nat.div_eq_of_lt (by omega)]
  | succ fuel IH =>
    intro l h
    cases l with
    | nil =>
      show 0 = (0 + S - 1) / S
      rw [Nat.div_eq_of_lt (by omega)]
    | cons a t =>
      simp only [List.length_cons] at h
      simp only [makeBatchesAux, List.length_cons]
      rw [IH (List.drop S (a :: t))
        (by rw [List.length_drop]; simp only [List.length_cons]; omega)]
      rw [List.length_drop]
      simp only [List.length_cons]
      by_cases hcase : t.length + 1 ≤ S
      · have h0 : t.length + 1 - S = 0 := by omega
        rw [h0]
        have h1 : (0 + S - 1) / S = 0 := Nat.div_eq_of_lt (by omega)
        rw [h1]
        have h2 : (t.length + 1 + S - 1) / S = 1 := by
          apply Nat.div_eq_of_lt_le <;> omega
        rw [h2]
      · have h3 : t.length + 1 - S + S - 1 = t.length := by omega
        have h4 : t.length + 1 + S - 1 = t.length + S := by omega
        rw [h3, h4, Nat.add_div_right _ hS]

theorem mba_sizes {α : Type} (S : Nat) (hS : 0 < S) :
    ∀ (fuel : Nat) (l : List α), l.length ≤ fuel →
      ∀ i b, (makeBatchesAux S fuel l)[i]? = some b →
        i + 1 < (makeBatchesAux S fuel l).length → b.length = S := by
  intro fuel
  induction fuel with
  | zero =>
    intro l h i b hget hi
    have hl : l = [] := List.length_eq_zero.mp (Nat.le_antisymm h (Nat.zero_le _))
    rw [hl, mba_nil] at hget
    simp at hget
  | succ fuel IH =>
    intro l h i b hget hi
    cases l with
    | nil =>
      rw [mba_nil] at hget
      simp at hget
    | cons a t =>
      simp only [List.length_cons] at h
      simp only [makeBatchesAux] at hget hi
      cases i with
      | zero =>
        simp only [List.getElem?_cons_zero, Option.some.injEq] at hget
        subst hget
        rw [List.length_take]
        simp only [List.length_cons] at hi ⊢
        have htail : makeBatchesAux S fuel (List.drop S (a :: t)) ≠ [] := by
          intro hcon
          rw [hcon] at hi
          simp at hi
        have hdrop : List.drop S (a :: t) ≠ [] := by
          intro hcon
          rw [hcon, mba_nil] at htail
          exact htail rfl
        have hlen : S < (a :: t).length := by
          by_contra hcon
          apply hdrop
          rw [List.drop_eq_nil_iff]
          omega
        simp only [List.length_cons] at hlen
        omega
      | succ j =>
        simp only [List.getElem?_cons_succ] at hget
        simp only [List.length_cons] at hi
        exact IH (List.drop S (a :: t))
          (by rw [List.length_drop]; simp only [List.length_cons]; omega)
          j b hget (by omega)

theorem mem_of_mem_mba {α : Type} (S : Nat) (hS : 0 < S)
    (fuel : Nat) (l : List α) (hfuel : l.length ≤ fuel)
    (b : List α) (hb : b ∈ makeBatchesAux S fuel l) (x : α) (hx : x ∈ b) :
    x ∈ l := by
  rw [← mba_flatten S hS fuel l hfuel]
  exact List.mem_flatten.mpr ⟨b, hb, hx⟩

theorem mba_count {α : Type} [DecidableEq α] (S : Nat) (hS : 0 < S) :
    ∀ (fuel : Nat) (l : List α), l.length ≤ fuel → l.Nodup →
      ∀ x ∈ l,
        (makeBatchesAux S fuel l).countP (fun b => decide (x ∈ b)) = 1 := by
  intro fuel
  induction fuel with
  | zero =>
    intro l h hnd x hx
    have hl : l = [] := List.length_eq_zero.mp (Nat.le_antisymm h (Nat.zero_le _))
    rw [hl] at hx
    simp at hx
  | succ fuel IH =>
    intro l h hnd x hx
    cases l with
    | nil => simp at hx
    | cons a t =>
      simp only [List.length_cons] at h
      have hsplit := List.take_append_drop S (a :: t)
      have hnd2 : (List.take S (a :: t) ++ List.drop S (a :: t)).Nodup := by
        rw [hsplit]
        exact hnd
      rw [List.nodup_append] at hnd2
      obtain ⟨hndtake, hnddrop, hdisj⟩ := hnd2
      have hdroplen : (List.drop S (a :: t)).length ≤ fuel := by
        rw [List.length_drop]
        simp only [List.length_cons]
        omega
      have hxsplit : x ∈ List.take S (a :: t) ∨ x ∈ List.drop S (a :: t) := by
        rw [← List.mem_append, hsplit]
        exact hx
      simp only [makeBatchesAux, List.countP_cons]
      rcases hxsplit with hxt | hxd
      · have hrest :
            (makeBatchesAux S fuel (List.drop S (a :: t))).countP
              (fun b => decide (x ∈ b)) = 0 := by
          rw [List.countP_eq_zero]
          intro b hb
          simp only [decide_eq_true_eq]
          intro hxb
          exact hdisj hxt
            (mem_of_mem_mba S hS fuel _ hdroplen b hb x hxb)
        rw [hrest]
        simp [hxt]
      · have hxnt : x ∉ List.take S (a :: t) := fun hcon => hdisj hcon hxd
        rw [IH (List.drop S (a :: t)) hdroplen hnddrop x hxd]
        simp [hxnt]

/-- C8: for every duplicate-free identifier list of length M and batch
size S > 0, the partitioning of `process_batches_with_workers`
produces exactly ceil(M / S) = (M + S - 1) / S batches whose
concatenation is the input list (contiguity), every identifier appears
in exactly one batch, and every batch except possibly the last has
size S. -/
theorem claim_C8 {α : Type} [DecidableEq α] (l : List α) (S : Nat)
    (hS : 0 < S) (hnd : l.Nodup) :
    (makeBatches l S).length = (l.length + S - 1) / S ∧
    (makeBatches l S).flatten = l ∧
    (∀ x ∈ l, (makeBatches l S).countP (fun b => decide (x ∈ b)) = 1) ∧
    (∀ i b, (makeBatches l S)[i]? = some b →
      i + 1 < (makeBatches l S).length → b.length = S) := by
  have hunfold : makeBatches l S = makeBatchesAux S l.length l := by
    unfold makeBatches
    rw [if_neg (by omega)]
  rw [hunfold]
  refine ⟨mba_length S hS l.length l le_rfl,
    mba_flatten S hS l.length l le_rfl,
    mba_count S hS l.length l le_rfl hnd,
    mba_sizes S hS l.length l le_rfl⟩

/-- Witness for C8 at a concrete input: five identifiers, batch size
two. -/
theorem claim_C8_witness :
    0 < 2 ∧ ([10, 20, 30, 40, 50] : List Nat).Nodup ∧
    (makeBatches ([10, 20, 30, 40, 50] : List Nat) 2).length = (5 + 2 - 1) / 2 ∧
    (makeBatches ([10, 20, 30, 40, 50] : List Nat) 2).flatten
      = [10, 20, 30, 40, 50] ∧
    (makeBatches ([10, 20, 30, 40, 50] : List Nat) 2).countP
      (fun b => decide ((10 : Nat) ∈ b)) = 1 ∧
    ([10, 20] : List Nat).length = 2 := by
  refine ⟨by decide, by decide, ?_, ?_, ?_, ?_⟩
  · have h := (claim_C8 ([10, 20, 30, 40, 50] : List Nat) 2
      (by decide) (by decide)).1
    simpa using h
  · exact (claim_C8 ([10, 20, 30, 40, 50] : List Nat) 2
      (by decide) (by decide)).2.1
  · exact (claim_C8 ([10, 20, 30, 40, 50] : List Nat) 2
      (by decide) (by decide)).2.2.1 10 (by decide)
  · exact (claim_C8 ([10, 20, 30, 40, 50] : List Nat) 2
      (by decide) (by decide)).2.2.2 0 [10, 20] (by decide) (by decide)

/-- Counterexample for C9 as stated: in `envC9` the category "u1"
parses and raises nothing but collects an empty id set, so `start`
returns at once — the category "u2", which alone would be processed to
completion, is never reached.  An empty collected identifier set DOES
prevent the processing of subsequent categories. -/
theorem claim_C9_counterexample :
    start envC9 ["u1", "u2"] = [StartEvent.emptyAbort "u1"] ∧
    start envC9 ["u2"] = [StartEvent.processed "u2"] := by decide

theorem startLoop_map (env : StartEnv) :
    ∀ (urls : List String), (∀ u ∈ urls, emptyAborts env u = false) →
      startLoop env urls = urls.map (outcomeOf env) := by
  intro urls
  induction urls with
  | nil => intro hu; rfl
  | cons u rest IH =>
    intro hu
    have hurest : ∀ v ∈ rest, emptyAborts env v = false := fun v hv =>
      hu v (List.mem_cons_of_mem u hv)
    have huu : emptyAborts env u = false := hu u (List.mem_cons_self u rest)
    rw [List.map_cons]
    unfold emptyAborts at huu
    cases hp : env.parseCat u with
    | none =>
      simp only [startLoop, hp, outcomeOf]
      exact congrArg _ (IH hurest)
    | some nc =>
      obtain ⟨nm, cid⟩ := nc
      rw [hp] at huu
      by_cases hr : env.collectRaises cid
      · simp only [startLoop, hp, outcomeOf, hr, if_true]
        exact congrArg _ (IH hurest)
      · have hr2 : env.collectRaises cid = false := by
          simp at hr
          exact hr
        have hne : ¬env.collectIds cid = ∅ := by
          simp [hr2] at huu
          exact huu
        by_cases hpr : env.processRaises cid
        · simp only [startLoop, hp, outcomeOf, hr2, hne, hpr]
          simp only [Bool.false_eq_true, if_false, if_neg hne, if_true]
          exact congrArg _ (IH hurest)
        · have hpr2 : env.processRaises cid = false := by
            simp at hpr
            exact hpr
          simp only [startLoop, hp, outcomeOf, hr2, hne, hpr2]
          simp only [Bool.false_eq_true, if_false, if_neg hne]
          exact congrArg _ (IH hurest)

/-- C9 (amended): as long as no category takes the empty-id-set
`return` path, every category in the sequence is processed to its own
outcome — a non-matching URL or a per-category exception never
prevents the processing of subsequent categories. -/
theorem claim_C9_amended (env : StartEnv) (urls : List String)
    (h : ∀ u ∈ urls, emptyAborts env u = false) :
    start env urls = urls.map (outcomeOf env) := by
  cases urls with
  | nil => rfl
  | cons u rest =>
    unfold start
    rw [if_neg (by simp)]
    exact startLoop_map env (u :: rest) h

/-- Witness for C9 (amended) at a concrete input: a processed category
followed by a non-matching URL. -/
theorem claim_C9_witness :
    start envC9 ["u2", "zzz"]
      = (["u2", "zzz"] : List String).map (outcomeOf envC9) :=
  claim_C9_amended envC9 ["u2", "zzz"] (by decide)
